import Mathlib

/-!
Shallow embedding of `fluxbitc.py` (repository `fluxth/fluxbitc`), a
configuration-to-ffmpeg-command compiler, together with proofs about the
claims on its specification.

Modelling conventions:
* Python strings are modelled as `List Char` in the algorithmic core and
  wrapped into `String` at the boundaries.
* Python dicts are ordered association lists (insertion order, unique keys);
  `dict[k] = v` updates in place or appends.
* Python floats are modelled as exact rationals; this is observationally
  adequate for the frame-rate values handled here (see `pyRound3`).
* Fallible code returns `Except`; a raised `BitcException` is the `.bitc`
  error, Python `ValueError` / `ZeroDivisionError` are separate errors.
-/

namespace Fluxbitc

/-- Python single-character `str.split(sep)`: splits on every occurrence of
`sep`, keeping empty pieces; `"".split(sep) == [""]`.  The result is never
empty.  (Every `split` call in the source uses a one-character separator:
`"="`, `"/"`, `"."`.) -/
def pySplitChar (sep : Char) : List Char → List (List Char)
  | [] => [[]]
  | c :: cs =>
    match pySplitChar sep cs with
    | [] => [[]]
    | p :: ps => if c = sep then [] :: p :: ps else (c :: p) :: ps

/-- Python substring test `needle in s`. -/
def containsSub (needle : List Char) : List Char → Bool
  | [] => needle.isEmpty
  | c :: cs => needle.isPrefixOf (c :: cs) || containsSub needle cs

/-- Worker for Python `str.replace` with a non-empty needle `n :: ns`:
leftmost, non-overlapping matches.  While the counter is positive, characters
of an already-matched needle are being consumed without being re-scanned. -/
def replaceAux (n : Char) (ns repl : List Char) : List Char → Nat → List Char
  | [], _ => []
  | _ :: cs, Nat.succ k => replaceAux n ns repl cs k
  | c :: cs, 0 =>
    if (n :: ns).isPrefixOf (c :: cs) then repl ++ replaceAux n ns repl cs ns.length
    else c :: replaceAux n ns repl cs 0

/-- Python `s.replace(needle, repl)` for a non-empty needle (the only case the
source exercises; Python's empty-needle behaviour is not modelled). -/
def replaceL (needle repl s : List Char) : List Char :=
  match needle with
  | [] => s
  | n :: ns => replaceAux n ns repl s 0

/-- First-match lookup in an ordered association list (Python dict lookup). -/
def lookupA {κ α : Type} [DecidableEq κ] : List (κ × α) → κ → Option α
  | [], _ => none
  | kv :: rest, k => if kv.1 = k then some kv.2 else lookupA rest k

/-- Python dict assignment `d[k] = v`: replaces the value in place if the key
exists (keeping its position), otherwise appends the new pair. -/
def dictInsert (d : List (String × String)) (k v : String) : List (String × String) :=
  if (lookupA d k).isSome then d.map (fun p => if p.1 = k then (k, v) else p)
  else d ++ [(k, v)]

/-- Concatenation of a list of character lists. -/
def catLists : List (List Char) → List Char
  | [] => []
  | x :: xs => x ++ catLists xs

/-- Python `sep.join(parts)`. -/
def joinSep (sep : String) : List String → String
  | [] => ""
  | [s] => s
  | s :: rest => s ++ sep ++ joinSep sep rest

/-! ## `Config.get` (fluxbitc.py lines 33-40)

```python
def get(self, key, default=None):
    item = self.data
    for k in key.split("."):
        if item is None or type(item) is not dict:
            return default
        item = item.get(k, default)
    return item
```

The configuration document is a JSON-like tree. -/

/-- A Python value as stored in the parsed configuration document.
`pyNone` is Python `None` (the `item is None` test in the source is subsumed
by the `type(item) is not dict` test, since `None` is not a dict). -/
inductive PyObj where
  | pyNone
  | pyStr (s : String)
  | pyInt (n : Int)
  | pyDict (entries : List (String × PyObj))
  | pyList (xs : List PyObj)

/-- Whether a `PyObj` is a dict (`type(item) is dict`). -/
def PyObj.isDict : PyObj → Bool
  | .pyDict _ => true
  | _ => false

/-- The loop body of `Config.get`: one iteration per key segment; a value that
is `None` or not a dict yields the default; a missing key substitutes the
default as the current value (`item.get(k, default)`) and traversal goes on. -/
def getLoop (default : PyObj) : PyObj → List String → PyObj
  | item, [] => item
  | item, k :: ks =>
    match item with
    | .pyDict entries => getLoop default ((lookupA entries k).getD default) ks
    | _ => default

/-- Embedding of `Config.get(key, default)` over a document whose top-level
entries are `data`. -/
def configGet (data : List (String × PyObj)) (key : String) (default : PyObj) : PyObj :=
  getLoop default (.pyDict data) ((pySplitChar '.' key.data).map (fun l => String.mk l))

/-- Whether the dotted traversal fails somewhere: a segment is looked up in a
non-dict value, or a segment is absent from the current dict. -/
def getFails : PyObj → List String → Bool
  | _, [] => false
  | item, k :: ks =>
    match item with
    | .pyDict entries =>
      match lookupA entries k with
      | some v => getFails v ks
      | none => true
    | _ => true

/-! ## `Config.hydrate_userdata`, list branch (fluxbitc.py lines 42-52)

```python
if type(data) is list:
    for item in data:
        parts = item.split("=")
        if len(parts) != 2:
            raise BitcException(f"Badly formatted data entry '{item}'")
        self.data["_userdata"][parts[0]] = parts[1]
```

The function mutates the user-data dict entry by entry; on a malformed entry
it raises, leaving the writes made so far in place.  The model returns the
final dict state together with the error, if any. -/

/-- Error message raised for a malformed `KEY=VALUE` entry. -/
def badEntryMsg (item : String) : String :=
  "Badly formatted data entry '" ++ item ++ "'"

/-- The list branch of `hydrate_userdata`: returns the user-data dict as left
after the loop (complete on success, partially written on error) and the
raised message, if any. -/
def hydrateList : List (String × String) → List String → (List (String × String)) × Option String
  | ud, [] => (ud, none)
  | ud, item :: rest =>
    match pySplitChar '=' item.data with
    | [k, v] => hydrateList (dictInsert ud (String.mk k) (String.mk v)) rest
    | _ => (ud, some (badEntryMsg item))

/-- The single-entry state update performed for a well-formed entry (used to
state what the loop has written before a failure). -/
def hydrateStep (ud : List (String × String)) (item : String) : List (String × String) :=
  match pySplitChar '=' item.data with
  | [k, v] => dictInsert ud (String.mk k) (String.mk v)
  | _ => ud

/-! ## Frame-rate derivation (fluxbitc.py lines 235-247)

```python
fps_rate = video_stream["avg_frame_rate"]
if fps_rate != video_stream["r_frame_rate"]:
    raise BitcException("Variable framerate video streams are not supported")
...
fps = fps_rate
if "/" in fps:
    fps_n, fps_d = fps.split("/")
    fps = float(fps_n) / float(fps_d)
    fps = round(fps, 3)
else:
    fps = int(fps)
```
-/

/-- Error kinds: `BitcException` with its message, and the Python exceptions
that `float()` / `int()` / tuple unpacking / zero division raise (which are
not `BitcException` and crash the program instead of printing `ERROR:`). -/
inductive PyErr where
  | bitc (msg : String)
  | valueError
  | zeroDivisionError
deriving DecidableEq

/-- Numeric value of a digit string. -/
def digitsVal (l : List Char) : Nat :=
  l.foldl (fun a c => 10 * a + (c.toNat - 48)) 0

/-- Python `float(s)` on the unsigned decimal literals the source feeds it
(ffprobe rational parts such as `"24000"`).  Signs, exponents and special
values are never produced by ffprobe rate strings and are not modelled.
The result is the exact rational value; rounding of the binary float is
absorbed into `pyRound3`, which is observation-equivalent at 3 decimals for
frame-rate magnitudes. -/
def pyFloat (s : String) : Option ℚ :=
  match pySplitChar '.' s.data with
  | [ip] => if ip ≠ [] ∧ ip.all Char.isDigit then some (digitsVal ip : ℚ) else none
  | [ip, fp] =>
    if (ip ≠ [] ∨ fp ≠ []) ∧ ip.all Char.isDigit ∧ fp.all Char.isDigit then
      some ((digitsVal ip : ℚ) + (digitsVal fp : ℚ) / (10 : ℚ) ^ fp.length)
    else none
  | _ => none

/-- Python `int(s)` on unsigned digit strings (`int("29.97")` raises). -/
def pyInt (s : String) : Option ℤ :=
  if s.data ≠ [] ∧ s.data.all Char.isDigit then some (digitsVal s.data : ℤ) else none

/-- Floor of a rational. -/
def ratFloor (q : ℚ) : ℤ := ⌊q⌋

/-- Round-half-to-even to an integer, as Python's `round` does. -/
def roundHalfEven (q : ℚ) : ℤ :=
  let f := ratFloor q
  let r := q - (f : ℚ)
  if r < 1 / 2 then f
  else if 1 / 2 < r then f + 1
  else if f % 2 = 0 then f else f + 1

/-- Python `round(x, 3)`, modelled on exact rationals. -/
def pyRound3 (q : ℚ) : ℚ := (roundHalfEven (q * 1000) : ℚ) / 1000

/-- The dynamic type of the `fps` display variable after derivation: an `int`
when the probed rate string has no `/`, a `float` (here: exact rational)
when it is divided from an `N/D` fraction. -/
inductive FpsVal where
  | int (n : ℤ)
  | float (q : ℚ)
deriving DecidableEq

/-- The frame-rate display-value derivation from the probed rate string
(the `if "/" in fps` block of `build_userdata_from_metadata`). -/
def deriveFps (fpsRate : String) : Except PyErr FpsVal :=
  if containsSub ['/'] fpsRate.data then
    match pySplitChar '/' fpsRate.data with
    | [nStr, dStr] =>
      match pyFloat (String.mk nStr), pyFloat (String.mk dStr) with
      | some qn, some qd =>
        if qd = 0 then .error .zeroDivisionError
        else .ok (.float (pyRound3 (qn / qd)))
      | _, _ => .error .valueError
    | _ => .error .valueError
  else
    match pyInt fpsRate with
    | some n => .ok (.int n)
    | none => .error .valueError

/-- Decimal digits of the fractional part `q ∈ [0, 1)`, most significant
first, stopping at zero (or at the fuel bound). -/
def fracDigits : ℚ → Nat → List Char
  | _, 0 => []
  | q, Nat.succ fuel =>
    if q = 0 then []
    else
      let q10 := q * 10
      let d := ratFloor q10
      Char.ofNat (48 + d.toNat) :: fracDigits (q10 - (d : ℚ)) fuel

/-- Rendering of a nonnegative float with finite decimal expansion, as
CPython's `str` renders the values produced by `round(·, 3)` (shortest
round-trip representation, always with at least one fractional digit:
`str(25.0) == "25.0"`, `str(23.976) == "23.976"`). -/
def floatRepr (q : ℚ) : String :=
  let ip := ratFloor q
  let frac := fracDigits (q - (ip : ℚ)) 30
  toString ip ++ "." ++ (if frac = [] then "0" else String.mk frac)

/-- Python `str(fps)` for the derived display value (`f"... {fps} FPS"`). -/
def fpsDisplay : FpsVal → String
  | .int n => toString n
  | .float q => floatRepr q

/-! ## `build_userdata_from_metadata` (fluxbitc.py lines 228-265) -/

/-- The fields of the probed video stream that the function reads. -/
structure VideoStream where
  width : ℤ
  height : ℤ
  avg_frame_rate : String
  r_frame_rate : String
  codec_name : String
  pix_fmt : String
  color_range : Option String

/-- The probed audio stream (unused by the userdata derivation, kept for the
source's signature). -/
structure AudioStream where
  index : ℤ

/-- Embedding of `build_userdata_from_metadata`.  The wall-clock timestamp
(`datetime.datetime.utcnow().isoformat()`) is passed in as a parameter. -/
def build_userdata_from_metadata (output_filename : String) (video_stream : VideoStream)
    (audio_stream : Option AudioStream) (format_metadata : List (String × String))
    (timestamp : String) : Except PyErr (List (String × String)) :=
  let fps_rate := video_stream.avg_frame_rate
  if fps_rate ≠ video_stream.r_frame_rate then
    .error (.bitc "Variable framerate video streams are not supported")
  else
    match deriveFps fps_rate with
    | .error e => .error e
    | .ok fps =>
      let info_1 := toString video_stream.width ++ "x" ++ toString video_stream.height
        ++ ", " ++ fpsDisplay fps ++ " FPS"
      let color_range := (video_stream.color_range).getD ""
      let color_info := if color_range ≠ "" then color_range ++ ", " else ""
      let info_2 := video_stream.codec_name ++ ", " ++ color_info ++ video_stream.pix_fmt
      let heading_sub :=
        String.mk ((pySplitChar '.' timestamp.data).headD []) ++ "Z"
      .ok [("frame_start", "0"),
           ("timecode_start", "01:00:00:00"),
           ("fps_rate", fps_rate),
           ("heading_title", output_filename),
           ("heading_sub", heading_sub),
           ("info_1", info_1),
           ("info_2", info_2)]

/-! ## `build_overlay_flags` (fluxbitc.py lines 335-386)

```python
for item in preset["items"]:
    filters = []
    for k, v in item.items():
        v = str(v)
        if k == "font":
            if v in fonts.keys():
                for fk, fv in fonts[v].items():
                    filters.append(f"{fk}={fv}")
        for uk, uv in userdata.items():
            target = "${" + uk + "}"
            if target in v:
                v = v.replace(target, uv)
        v = v.replace(":", "\\:")
        v = v.replace(",", "\\,")
        if k == "text" or k == "timecode":
            filters.append(f"{k}='{v}'")
        else:
            filters.append(f"{k}={v}")
    drawtexts.append(":".join(filters))
return ["-vf", ",".join([f"drawtext={c}" for c in drawtexts])]
```

Note the absence of `continue` in the `k == "font"` branch: after appending
the font's clauses the loop body falls through and also processes the `font`
parameter itself as a regular parameter. -/

/-- A primitive item-parameter value before the `str(v)` coercion. -/
inductive PyScalar where
  | s (v : String)
  | i (n : ℤ)

/-- Python `str(v)` on the primitive parameter values. -/
def pyStrOf : PyScalar → String
  | .s v => v
  | .i n => toString n

/-- The dollar sign, character 36. -/
def dollarCh : Char := Char.ofNat 36

/-- The left (opening) curly brace, character 123. -/
def lbraceCh : Char := Char.ofNat 123

/-- The right (closing) curly brace, character 125. -/
def rbraceCh : Char := Char.ofNat 125

/-- The literal placeholder token `"${" + uk + "}"` built for a user-data
key. -/
def targetOf (k : List Char) : List Char :=
  dollarCh :: lbraceCh :: (k ++ [rbraceCh])

/-- The user-data substitution loop, at the character-list level:
one pass per user-data entry, in namespace order; each pass replaces every
occurrence of that entry's token currently present in the value. -/
def substEntriesCore (entries : List (List Char × List Char)) (v : List Char) : List Char :=
  entries.foldl
    (fun acc kv =>
      if containsSub (targetOf kv.1) acc then replaceL (targetOf kv.1) kv.2 acc else acc)
    v

/-- The user-data substitution loop on `String`s. -/
def substUserdata (userdata : List (String × String)) (v : String) : String :=
  String.mk (substEntriesCore (userdata.map (fun kv => (kv.1.data, kv.2.data))) v.data)

/-- The escaping step `v.replace(":", "\\:")` then `v.replace(",", "\\,")`. -/
def escapeVF (v : String) : String :=
  String.mk (replaceL [','] ['\\', ','] (replaceL [':'] ['\\', ':'] v.data))

/-- A font definition: filter-parameter name to value, in definition order
(`fontcolor` colour names have already been replaced by `init_fonts`). -/
abbrev FontDef : Type := List (String × String)

/-- The clauses appended for one item parameter `(k, v)`: the font expansion
(only when `k == "font"` and the font is known), followed by the regular
clause for `(k, v)` itself — substituted, escaped, and quoted when the name
is `text` or `timecode`. -/
def paramClauses (fonts : List (String × FontDef)) (userdata : List (String × String))
    (k : String) (v0 : PyScalar) : List String :=
  let v := pyStrOf v0
  (if k = "font" then
    match lookupA fonts v with
    | some f => f.map (fun p => p.1 ++ "=" ++ p.2)
    | none => []
  else [])
  ++
  (let ve := escapeVF (substUserdata userdata v)
   if k = "text" ∨ k = "timecode" then [k ++ "='" ++ ve ++ "'"]
   else [k ++ "=" ++ ve])

/-- One overlay item: an ordered mapping of parameter name to value. -/
abbrev Item : Type := List (String × PyScalar)

/-- The clause list built for one item (the inner `for k, v in item.items()`
loop). -/
def itemClauses (fonts : List (String × FontDef)) (userdata : List (String × String)) :
    Item → List String
  | [] => []
  | kv :: rest => paramClauses fonts userdata kv.1 kv.2 ++ itemClauses fonts userdata rest

/-- A preset: its `items` key, when present. -/
structure Preset where
  items : Option (List Item)

/-- The full `-vf` filter-chain value for an item list. -/
def overlayChain (fonts : List (String × FontDef)) (userdata : List (String × String))
    (items : List Item) : String :=
  joinSep "," (items.map (fun it => "drawtext=" ++ joinSep ":" (itemClauses fonts userdata it)))

/-- Message for a preset name absent from the configuration. -/
def unknownPresetMsg (name : String) : String :=
  "Definition of preset '" ++ name ++ "' does not exist in the config file"

/-- Message for a preset without an `items` key. -/
def missingItemsMsg (name : String) : String :=
  "Definition of preset '" ++ name ++ "' does not have the `items` key"

/-- Embedding of `build_overlay_flags`: the presets/fonts/user-data mappings
are the values the source reads from the configuration (missing keys there
default to empty dicts, i.e. empty lists here). -/
def build_overlay_flags (presets : List (String × Preset)) (fonts : List (String × FontDef))
    (userdata : List (String × String)) (preset_name : String) :
    Except String (List String) :=
  match lookupA presets preset_name with
  | none => .error (unknownPresetMsg preset_name)
  | some preset =>
    match preset.items with
    | none => .error (missingItemsMsg preset_name)
    | some items => .ok ["-vf", overlayChain fonts userdata items]

/-! ## Specification-side definitions

These definitions follow the spec's words (per-occurrence placeholder
replacement, character-wise escaping, failing dotted traversal) and are
compared against the source-derived definitions above. -/

/-- A decomposition segment of an overlay parameter value: literal text, or a
complete placeholder token for a key. -/
inductive PlaceSeg where
  | lit (s : List Char)
  | tok (k : List Char)

/-- The character content of one segment. -/
def renderSeg : PlaceSeg → List Char
  | .lit s => s
  | .tok k => targetOf k

/-- The character content of a segment decomposition. -/
def renderSegs (segs : List PlaceSeg) : List Char :=
  catLists (segs.map renderSeg)

/-- Free of the placeholder delimiter characters `$`, `{`, `}`. -/
def delimFree (s : List Char) : Prop :=
  dollarCh ∉ s ∧ lbraceCh ∉ s ∧ rbraceCh ∉ s

/-- Well-formedness of one segment: literal text introduces no `$` (so no
token can start inside or across it), and token keys are delimiter-free. -/
def okSeg : PlaceSeg → Prop
  | .lit s => dollarCh ∉ s
  | .tok k => delimFree k

/-- The effect of one `v.replace("${k}", val)` pass on a decomposition:
every token of key `k` becomes literal text `val`. -/
def replaceTokSeg (k val : List Char) : PlaceSeg → PlaceSeg
  | .lit s => .lit s
  | .tok u => if u = k then .lit val else .tok u

/-- The spec's per-occurrence substitution on one segment: a token whose key
is in the user-data namespace is replaced by that key's value; a token with
an unknown key is left verbatim; literal text is untouched. -/
def specSubstSeg (entries : List (List Char × List Char)) : PlaceSeg → List Char
  | .lit s => s
  | .tok k =>
    match lookupA entries k with
    | some v => v
    | none => targetOf k

/-- The spec's per-occurrence substitution over a whole decomposition. -/
def specSubst (entries : List (List Char × List Char)) (segs : List PlaceSeg) : List Char :=
  catLists (segs.map (specSubstSeg entries))

instance (s : List Char) : Decidable (delimFree s) :=
  inferInstanceAs (Decidable (dollarCh ∉ s ∧ lbraceCh ∉ s ∧ rbraceCh ∉ s))

instance : ∀ sg : PlaceSeg, Decidable (okSeg sg)
  | .lit s => inferInstanceAs (Decidable (dollarCh ∉ s))
  | .tok k => inferInstanceAs (Decidable (delimFree k))

/-- The spec's character-wise escaping: each `:` and `,` is prefixed with one
backslash, every other character is left unaltered. -/
def escSpecChar (c : Char) : List Char :=
  if c = ':' then ['\\', ':'] else if c = ',' then ['\\', ','] else [c]

/-- Decidable equality for `Except` results. -/
instance instDecEqExcept {ε α : Type} [DecidableEq ε] [DecidableEq α] :
    DecidableEq (Except ε α) := fun a b =>
  match a, b with
  | .ok x, .ok y =>
    if h : x = y then .isTrue (congrArg Except.ok h)
    else .isFalse (fun c => h (Except.ok.inj c))
  | .error x, .error y =>
    if h : x = y then .isTrue (congrArg Except.error h)
    else .isFalse (fun c => h (Except.error.inj c))
  | .ok _, .error _ => .isFalse (fun c => Except.noConfusion c)
  | .error _, .ok _ => .isFalse (fun c => Except.noConfusion c)

/-! # Theorems

General lemmas about the embedded string primitives, followed by one theorem
per claim (with counterexamples and witnesses where applicable). -/

theorem replaceAux_skip (n : Char) (ns repl : List Char) :
    ∀ (t rest : List Char), replaceAux n ns repl (t ++ rest) t.length = replaceAux n ns repl rest 0
  | [], _ => rfl
  | _ :: t, rest => replaceAux_skip n ns repl t rest

theorem replaceAux_not_head (n : Char) (ns repl : List Char) (c : Char) (cs : List Char)
    (h : ¬ c = n) : replaceAux n ns repl (c :: cs) 0 = c :: replaceAux n ns repl cs 0 := by
  have hb : (n :: ns).isPrefixOf (c :: cs) = false := by
    show (n == c && ns.isPrefixOf cs) = false
    have hnc : (n == c) = false := beq_eq_false_iff_ne.mpr (fun e => h e.symm)
    rw [hnc, Bool.false_and]
  show (if (n :: ns).isPrefixOf (c :: cs) then _ else _) = _
  simp only [hb, Bool.false_eq_true, if_false]

theorem replaceAux_lit (n : Char) (ns repl : List Char) :
    ∀ (s₁ rest : List Char), n ∉ s₁ →
      replaceAux n ns repl (s₁ ++ rest) 0 = s₁ ++ replaceAux n ns repl rest 0
  | [], _, _ => rfl
  | c :: s₁, rest, h => by
    have hc : ¬ c = n := fun e => h (e ▸ List.mem_cons_self c s₁)
    rw [List.cons_append, replaceAux_not_head n ns repl c _ hc,
      replaceAux_lit n ns repl s₁ rest (fun m => h (List.mem_cons_of_mem c m)),
      List.cons_append]

theorem isPrefixOf_self_app : ∀ (l r : List Char), l.isPrefixOf (l ++ r) = true
  | [], _ => by simp [List.isPrefixOf]
  | c :: l, r => by
    show (c == c && l.isPrefixOf (l ++ r)) = true
    rw [beq_self_eq_true, isPrefixOf_self_app l r, Bool.and_self]

theorem replaceAux_hit (n : Char) (ns repl rest : List Char) :
    replaceAux n ns repl (n :: (ns ++ rest)) 0 = repl ++ replaceAux n ns repl rest 0 := by
  show (if (n :: ns).isPrefixOf (n :: (ns ++ rest)) then
      repl ++ replaceAux n ns repl (ns ++ rest) ns.length
    else _) = _
  rw [show (n :: (ns ++ rest)) = (n :: ns) ++ rest from rfl, if_pos (isPrefixOf_self_app (n :: ns) rest)]
  rw [replaceAux_skip]

theorem replaceAux_id (n : Char) (ns repl : List Char) :
    ∀ s, containsSub (n :: ns) s = false → replaceAux n ns repl s 0 = s
  | [], _ => rfl
  | c :: cs, h => by
    have h' : (n :: ns).isPrefixOf (c :: cs) = false ∧ containsSub (n :: ns) cs = false := by
      simpa [containsSub] using h
    show (if (n :: ns).isPrefixOf (c :: cs) then _ else _) = _
    simp only [h'.1, Bool.false_eq_true, if_false]
    rw [replaceAux_id n ns repl cs h'.2]

theorem replaceAux_single_step (n c : Char) (repl cs : List Char) :
    replaceAux n [] repl (c :: cs) 0 =
      (if c = n then repl else [c]) ++ replaceAux n [] repl cs 0 := by
  by_cases h : c = n
  · subst h
    rw [if_pos rfl]
    exact replaceAux_hit c [] repl cs
  · rw [if_neg h, replaceAux_not_head n [] repl c cs h, List.singleton_append]

theorem escapeChars_spec :
    ∀ s : List Char,
      replaceAux ',' [] ['\\', ','] (replaceAux ':' [] ['\\', ':'] s 0) 0 =
        catLists (s.map escSpecChar)
  | [] => rfl
  | c :: cs => by
    rw [replaceAux_single_step ':' c ['\\', ':'] cs]
    by_cases h1 : c = ':'
    · subst h1
      rw [if_pos rfl]
      rw [replaceAux_lit ',' [] ['\\', ','] ['\\', ':'] _ (by decide)]
      rw [escapeChars_spec cs]
      simp [catLists, escSpecChar]
    · rw [if_neg h1]
      by_cases h2 : c = ','
      · subst h2
        rw [show ([','] ++ replaceAux ':' [] ['\\', ':'] cs 0) =
          ',' :: ([] ++ replaceAux ':' [] ['\\', ':'] cs 0) from rfl]
        rw [replaceAux_hit ',' [] ['\\', ','] _]
        rw [escapeChars_spec cs]
        simp [catLists, escSpecChar]
      · rw [List.singleton_append, replaceAux_not_head ',' [] ['\\', ','] c _ h2]
        rw [escapeChars_spec cs]
        simp [catLists, escSpecChar, h1, h2]

/-- Claim C5: for every overlay-item parameter value (after placeholder
substitution), the escaping step -- `replace(":", "\\:")` then
`replace(",", "\\,")` -- is exactly the character-wise map that prefixes each
`:` and `,` of the original value with one backslash and leaves every other
character unaltered; in particular the backslash introduced for one
replacement is never re-escaped by the other. -/
theorem escape_colon_comma_charwise (v : String) :
    escapeVF v = String.mk (catLists (v.data.map escSpecChar)) := by
  unfold escapeVF replaceL
  exact congrArg String.mk (escapeChars_spec v.data)



theorem replaceAux_miss (n : Char) (ns repl : List Char) (c : Char) (cs : List Char)
    (h : (n :: ns).isPrefixOf (c :: cs) = false) :
    replaceAux n ns repl (c :: cs) 0 = c :: replaceAux n ns repl cs 0 := by
  show (if (n :: ns).isPrefixOf (c :: cs) then _ else _) = _
  simp only [h, Bool.false_eq_true, if_false]

theorem token_mismatch :
    ∀ (k u : List Char), k ≠ u → rbraceCh ∉ k → rbraceCh ∉ u →
      ∀ rest, (k ++ [rbraceCh]).isPrefixOf (u ++ rbraceCh :: rest) = false
  | [], [], hne, _, _ => absurd rfl hne
  | [], b :: u', _, _, hu => fun rest => by
    show (rbraceCh == b && List.isPrefixOf [] (u' ++ rbraceCh :: rest)) = false
    have hb : (rbraceCh == b) = false :=
      beq_eq_false_iff_ne.mpr (fun e => hu (by rw [e]; exact List.mem_cons_self b u'))
    rw [hb, Bool.false_and]
  | a :: k', [], _, hk, _ => fun rest => by
    show (a == rbraceCh && (k' ++ [rbraceCh]).isPrefixOf rest) = false
    have ha : (a == rbraceCh) = false :=
      beq_eq_false_iff_ne.mpr (fun e => hk (by rw [← e]; exact List.mem_cons_self a k'))
    rw [ha, Bool.false_and]
  | a :: k', b :: u', hne, hk, hu => fun rest => by
    show (a == b && (k' ++ [rbraceCh]).isPrefixOf (u' ++ rbraceCh :: rest)) = false
    by_cases hab : a = b
    · subst hab
      have hne' : k' ≠ u' := fun e => hne (by rw [e])
      rw [token_mismatch k' u' hne' (fun m => hk (List.mem_cons_of_mem a m))
        (fun m => hu (List.mem_cons_of_mem a m)) rest, Bool.and_false]
    · rw [beq_eq_false_iff_ne.mpr hab, Bool.false_and]

theorem replaceL_tok_hit (k val rest : List Char) :
    replaceL (targetOf k) val (targetOf k ++ rest) = val ++ replaceL (targetOf k) val rest :=
  replaceAux_hit dollarCh (lbraceCh :: (k ++ [rbraceCh])) val rest

theorem replaceL_tok_miss (k u val rest : List Char) (hne : u ≠ k)
    (hk : delimFree k) (hu : delimFree u) :
    replaceL (targetOf k) val (targetOf u ++ rest) = targetOf u ++ replaceL (targetOf k) val rest := by
  have hpre : (dollarCh :: lbraceCh :: (k ++ [rbraceCh])).isPrefixOf
      (dollarCh :: ((lbraceCh :: (u ++ [rbraceCh])) ++ rest)) = false := by
    show (dollarCh == dollarCh &&
      (lbraceCh :: (k ++ [rbraceCh])).isPrefixOf ((lbraceCh :: (u ++ [rbraceCh])) ++ rest)) = false
    rw [beq_self_eq_true, Bool.true_and]
    show (lbraceCh == lbraceCh && (k ++ [rbraceCh]).isPrefixOf ((u ++ [rbraceCh]) ++ rest)) = false
    rw [beq_self_eq_true, Bool.true_and]
    have he : (u ++ [rbraceCh]) ++ rest = u ++ rbraceCh :: rest := by simp
    rw [he]
    exact token_mismatch k u (fun e => hne e.symm) hk.2.2 hu.2.2 rest
  have hno : dollarCh ∉ (lbraceCh :: (u ++ [rbraceCh])) := by
    intro m
    rcases List.mem_cons.mp m with h | h
    · exact absurd h (by decide)
    · rcases List.mem_append.mp h with h | h
      · exact hu.1 h
      · exact absurd h (by decide)
  show replaceAux dollarCh (lbraceCh :: (k ++ [rbraceCh])) val
    (dollarCh :: ((lbraceCh :: (u ++ [rbraceCh])) ++ rest)) 0 = _
  rw [replaceAux_miss _ _ _ _ _ hpre, replaceAux_lit _ _ _ _ _ hno]
  rfl

theorem okSeg_replaceTok (k val : List Char) (hval : dollarCh ∉ val) :
    ∀ sg : PlaceSeg, okSeg sg → okSeg (replaceTokSeg k val sg)
  | .lit _, h => h
  | .tok u, h => by
    by_cases he : u = k
    · simp only [replaceTokSeg, if_pos he]
      exact hval
    · simp only [replaceTokSeg, if_neg he]
      exact h

theorem replaceL_render (k val : List Char) (hk : delimFree k) :
    ∀ segs : List PlaceSeg, (∀ sg ∈ segs, okSeg sg) →
      replaceL (targetOf k) val (renderSegs segs) = renderSegs (segs.map (replaceTokSeg k val))
  | [], _ => rfl
  | sg :: segs, hs => by
    have hrest : ∀ sg' ∈ segs, okSeg sg' := fun sg' m => hs sg' (List.mem_cons_of_mem sg m)
    cases sg with
    | lit s =>
      have hd : dollarCh ∉ s := hs (.lit s) (List.mem_cons_self _ _)
      show replaceL (targetOf k) val (s ++ renderSegs segs)
        = s ++ renderSegs (segs.map (replaceTokSeg k val))
      show replaceAux dollarCh (lbraceCh :: (k ++ [rbraceCh])) val (s ++ renderSegs segs) 0 = _
      rw [replaceAux_lit _ _ _ _ _ hd]
      exact congrArg (s ++ ·) (replaceL_render k val hk segs hrest)
    | tok u =>
      by_cases he : u = k
      · subst he
        show replaceL (targetOf u) val (targetOf u ++ renderSegs segs) = _
        rw [replaceL_tok_hit, replaceL_render u val hk segs hrest]
        simp [renderSegs, replaceTokSeg, renderSeg, catLists]
      · show replaceL (targetOf k) val (targetOf u ++ renderSegs segs) = _
        rw [replaceL_tok_miss k u val _ he hk (hs (.tok u) (List.mem_cons_self _ _)),
          replaceL_render k val hk segs hrest]
        simp [renderSegs, replaceTokSeg, renderSeg, catLists, if_neg he]

theorem substStep_collapse (k val v : List Char) :
    (if containsSub (targetOf k) v then replaceL (targetOf k) val v else v)
      = replaceL (targetOf k) val v := by
  by_cases h : containsSub (targetOf k) v = true
  · rw [if_pos h]
  · rw [if_neg h]
    have hf : containsSub (targetOf k) v = false := by
      revert h
      cases containsSub (targetOf k) v <;> simp
    exact (replaceAux_id dollarCh (lbraceCh :: (k ++ [rbraceCh])) val v hf).symm

theorem specSubst_nil : ∀ segs : List PlaceSeg, specSubst [] segs = renderSegs segs := by
  intro segs
  induction segs with
  | nil => rfl
  | cons sg segs ih =>
    cases sg with
    | lit s =>
      show s ++ specSubst [] segs = s ++ renderSegs segs
      rw [ih]
    | tok k =>
      show targetOf k ++ specSubst [] segs = targetOf k ++ renderSegs segs
      rw [ih]

theorem specSubst_cons (k val : List Char) (es : List (List Char × List Char)) :
    ∀ segs : List PlaceSeg,
      specSubst es (segs.map (replaceTokSeg k val)) = specSubst ((k, val) :: es) segs := by
  intro segs
  induction segs with
  | nil => rfl
  | cons sg segs ih =>
    cases sg with
    | lit s =>
      show s ++ specSubst es (segs.map (replaceTokSeg k val)) = s ++ specSubst ((k, val) :: es) segs
      rw [ih]
    | tok u =>
      show specSubstSeg es (replaceTokSeg k val (.tok u)) ++ specSubst es (segs.map (replaceTokSeg k val))
        = specSubstSeg ((k, val) :: es) (.tok u) ++ specSubst ((k, val) :: es) segs
      rw [ih]
      by_cases he : u = k
      · subst he
        simp [replaceTokSeg, specSubstSeg, lookupA]
      · have hke : ¬ k = u := fun e => he e.symm
        simp [replaceTokSeg, specSubstSeg, lookupA, if_neg he, if_neg hke]

/-- Claim C6 (amended): provided the user-data keys contain none of `$`, the
braces, and the user-data values contain no `$`, and the parameter value
decomposes into `$`-free literal text and complete placeholder tokens, the
sequential per-key substitution loop replaces each occurrence of a token
whose key is in the namespace by that key's value (first binding) and leaves
occurrences of unknown keys unchanged verbatim. -/
theorem substCore_per_occurrence :
    ∀ (entries : List (List Char × List Char)) (segs : List PlaceSeg),
      (∀ kv ∈ entries, delimFree kv.1 ∧ dollarCh ∉ kv.2) →
      (∀ sg ∈ segs, okSeg sg) →
      substEntriesCore entries (renderSegs segs) = specSubst entries segs
  | [], segs, _, _ => (specSubst_nil segs).symm
  | (k, val) :: es, segs, he, hs => by
    have hk : delimFree k := (he (k, val) (List.mem_cons_self _ _)).1
    have hval : dollarCh ∉ val := (he (k, val) (List.mem_cons_self _ _)).2
    show substEntriesCore es
      (if containsSub (targetOf k) (renderSegs segs)
       then replaceL (targetOf k) val (renderSegs segs) else renderSegs segs) = _
    rw [substStep_collapse, replaceL_render k val hk segs hs,
      substCore_per_occurrence es (segs.map (replaceTokSeg k val))
        (fun kv m => he kv (List.mem_cons_of_mem _ m))
        (fun sg m => by
          rcases List.mem_map.mp m with ⟨sg', m', rfl⟩
          exact okSeg_replaceTok k val hval sg' (hs sg' m')),
      specSubst_cons]



theorem overlayMsgs_ne (name : String) : unknownPresetMsg name ≠ missingItemsMsg name := by
  intro h
  have hd := congrArg String.data h
  rw [unknownPresetMsg, missingItemsMsg] at hd
  simp only [String.data_append, List.append_assoc] at hd
  have h2 := List.append_cancel_left hd
  have h3 := List.append_cancel_left h2
  exact absurd h3 (by decide)

/-- Claim C7: overlay compilation fails with the unknown-preset error exactly
when the preset name is absent from the presets mapping; when the preset
exists it fails with the missing-items error exactly when the preset lacks an
`items` list; and when the preset exists and has an items list it returns the
`-vf` filter chain without error. -/
theorem overlay_compile_error_cases (presets : List (String × Preset))
    (fonts : List (String × FontDef)) (userdata : List (String × String)) (name : String) :
    (build_overlay_flags presets fonts userdata name = .error (unknownPresetMsg name)
        ↔ lookupA presets name = none)
    ∧ (∀ pr, lookupA presets name = some pr →
        (build_overlay_flags presets fonts userdata name = .error (missingItemsMsg name)
          ↔ pr.items = none))
    ∧ (∀ pr its, lookupA presets name = some pr → pr.items = some its →
        build_overlay_flags presets fonts userdata name
          = .ok ["-vf", overlayChain fonts userdata its]) := by
  rcases hl : lookupA presets name with _ | pr
  · refine ⟨?_, ?_, ?_⟩
    · simp only [build_overlay_flags, hl]
    · intro pr hpr
      exact absurd hpr (by simp)
    · intro pr its hpr _
      exact absurd hpr (by simp)
  · rcases hi : pr.items with _ | its
    · refine ⟨?_, ?_, ?_⟩
      · simp only [build_overlay_flags, hl, hi]
        apply iff_of_false
        · intro he
          exact overlayMsgs_ne name (Except.error.inj he).symm
        · simp
      · intro pr' hpr'
        have hpe : pr' = pr := (Option.some.inj hpr').symm
        subst hpe
        exact iff_of_true (by simp only [build_overlay_flags, hl, hi]) hi
      · intro pr' its' hpr' hits
        have hpe : pr' = pr := (Option.some.inj hpr').symm
        subst hpe
        rw [hi] at hits
        exact absurd hits (by simp)
    · refine ⟨?_, ?_, ?_⟩
      · simp only [build_overlay_flags, hl, hi]
        apply iff_of_false
        · intro he
          exact Except.noConfusion he
        · simp
      · intro pr' hpr'
        have hpe : pr' = pr := (Option.some.inj hpr').symm
        subst hpe
        simp only [build_overlay_flags, hl, hi]
        apply iff_of_false
        · intro he
          exact Except.noConfusion he
        · simp
      · intro pr' its' hpr' hits
        have hpe : pr' = pr := (Option.some.inj hpr').symm
        subst hpe
        rw [hi] at hits
        have hie : its' = its := (Option.some.inj hits).symm
        subst hie
        simp only [build_overlay_flags, hl, hi]

theorem overlay_compile_error_cases_witness :
    build_overlay_flags [("p", ⟨some [[("x", PyScalar.s "1")]]⟩)] [] [] "p"
      = .ok ["-vf", overlayChain [] [] [[("x", PyScalar.s "1")]]] :=
  (overlay_compile_error_cases [("p", ⟨some [[("x", PyScalar.s "1")]]⟩)] [] [] "p").2.2
    ⟨some [[("x", PyScalar.s "1")]]⟩ [[("x", PyScalar.s "1")]] rfl rfl

theorem deriveFps_no_bitc (s msg : String) : deriveFps s ≠ .error (.bitc msg) := by
  simp only [deriveFps]
  repeat' split
  all_goals intro h
  all_goals
    first
      | exact Except.noConfusion h
      | exact PyErr.noConfusion (Except.error.inj h)

/-- Claim C8: metadata-based user-data derivation fails with the fatal
variable-frame-rate `BitcException` if and only if the probed stream's
`avg_frame_rate` string differs from its `r_frame_rate` string.  (Any failure
of the two branches after that check is a Python `ValueError` or
`ZeroDivisionError`, never this error.) -/
theorem metadata_error_iff_vfr (fn : String) (vs : VideoStream) (au : Option AudioStream)
    (fmt : List (String × String)) (ts : String) :
    build_userdata_from_metadata fn vs au fmt ts
        = .error (.bitc "Variable framerate video streams are not supported")
      ↔ vs.avg_frame_rate ≠ vs.r_frame_rate := by
  by_cases h : vs.avg_frame_rate = vs.r_frame_rate
  · apply iff_of_false
    · intro hl
      simp only [build_userdata_from_metadata] at hl
      rw [if_neg (fun hne => hne h)] at hl
      rcases hd : deriveFps vs.avg_frame_rate with e | fps
      · rw [hd] at hl
        have he : e = .bitc "Variable framerate video streams are not supported" :=
          Except.error.inj hl
        exact deriveFps_no_bitc vs.avg_frame_rate _ (by rw [hd, he])
      · rw [hd] at hl
        exact Except.noConfusion hl
    · exact fun hne => hne h
  · apply iff_of_true _ h
    simp only [build_userdata_from_metadata]
    rw [if_pos h]

theorem metadata_error_iff_vfr_witness :
    build_userdata_from_metadata "out.mov"
        ⟨1920, 1080, "30/1", "29.97", "h264", "yuv420p", none⟩ none [] "2024-01-01T00:00:00"
      = .error (.bitc "Variable framerate video streams are not supported") :=
  (metadata_error_iff_vfr "out.mov"
    ⟨1920, 1080, "30/1", "29.97", "h264", "yuv420p", none⟩ none [] "2024-01-01T00:00:00").mpr
    (by decide)



/-- Claim C1 counterexample: for the configuration of the claim (preset
`default` with the single item `{text: "Hello, World", font: "main"}` and
font `main` = `{fontcolor: 0xFFFFFF}`), the compiled chain is NOT
`drawtext=fontcolor=0xFFFFFF:text='Hello\, World'`: the item's parameters
are emitted in item order, and the `font` key falls through and additionally
emits a `font=main` clause. -/
theorem hello_world_claimed_chain_refuted :
    build_overlay_flags
        [("default", ⟨some [[("text", PyScalar.s "Hello, World"), ("font", PyScalar.s "main")]]⟩)]
        [("main", [("fontcolor", "0xFFFFFF")])] [] "default"
      ≠ .ok ["-vf", "drawtext=fontcolor=0xFFFFFF:text='Hello\\, World'"] := by decide

/-- Claim C1 (amended): for the configuration of the claim, compiling preset
`default` yields the `-vf` value
`drawtext=text='Hello\, World':fontcolor=0xFFFFFF:font=main`: clauses in
item order, the font expansion at the position of the `font` key, followed by
the fall-through `font=main` clause. -/
theorem hello_world_compiled_chain :
    build_overlay_flags
        [("default", ⟨some [[("text", PyScalar.s "Hello, World"), ("font", PyScalar.s "main")]]⟩)]
        [("main", [("fontcolor", "0xFFFFFF")])] [] "default"
      = .ok ["-vf", "drawtext=text='Hello\\, World':fontcolor=0xFFFFFF:font=main"] := rfl

/-- Claim C2 counterexample: an item consisting only of `font: "main"` with a
known font `main` = `{fontcolor: 0xFFFFFF}` contributes
`["fontcolor=0xFFFFFF", "font=main"]`, not exactly the font's one clause: the
`font` parameter is additionally processed as a regular parameter because the
source's font branch does not skip the rest of the loop body. -/
theorem font_param_contributes_extra_clause :
    itemClauses [("main", [("fontcolor", "0xFFFFFF")])] [] [("font", PyScalar.s "main")]
      ≠ ["fontcolor=0xFFFFFF"] := by decide

theorem itemClauses_append (fonts : List (String × FontDef)) (userdata : List (String × String)) :
    ∀ a b : Item, itemClauses fonts userdata (a ++ b)
      = itemClauses fonts userdata a ++ itemClauses fonts userdata b
  | [], _ => rfl
  | kv :: a, b => by
    show paramClauses fonts userdata kv.1 kv.2 ++ itemClauses fonts userdata (a ++ b) = _
    rw [itemClauses_append fonts userdata a b]
    show _ = paramClauses fonts userdata kv.1 kv.2 ++ itemClauses fonts userdata a
      ++ itemClauses fonts userdata b
    rw [List.append_assoc]

/-- Claim C2 (amended): a `font` parameter contributes the referenced font's
`name=value` clauses in the font's own order with values verbatim (none when
the font is unknown), always followed by one regular clause for the `font`
parameter itself -- placeholder-substituted, escaped, unquoted `font=value`. -/
theorem font_param_clause_structure (fonts : List (String × FontDef))
    (userdata : List (String × String)) (pre post : Item) (v : String) :
    itemClauses fonts userdata (pre ++ ("font", PyScalar.s v) :: post)
      = itemClauses fonts userdata pre
        ++ (match lookupA fonts v with
            | some f => f.map (fun p => p.1 ++ "=" ++ p.2)
            | none => [])
        ++ ["font" ++ "=" ++ escapeVF (substUserdata userdata v)]
        ++ itemClauses fonts userdata post := by
  rw [itemClauses_append]
  have hp : paramClauses fonts userdata "font" (PyScalar.s v)
      = (match lookupA fonts v with
         | some f => f.map (fun p => p.1 ++ "=" ++ p.2)
         | none => [])
        ++ ["font" ++ "=" ++ escapeVF (substUserdata userdata v)] := by
    show ((if "font" = "font" then
        match lookupA fonts v with
        | some f => f.map (fun p => p.1 ++ "=" ++ p.2)
        | none => []
      else [])
      ++ (if "font" = "text" ∨ "font" = "timecode"
          then ["font" ++ "='" ++ escapeVF (substUserdata userdata v) ++ "'"]
          else ["font" ++ "=" ++ escapeVF (substUserdata userdata v)])) = _
    rw [if_pos rfl, if_neg (by decide)]
  show itemClauses fonts userdata pre
    ++ (paramClauses fonts userdata "font" (PyScalar.s v) ++ itemClauses fonts userdata post) = _
  rw [hp]
  simp [List.append_assoc]

theorem deriveFps_24000_1001 : deriveFps "24000/1001" = .ok (.float (23.976 : ℚ)) := by
  have h1 : deriveFps "24000/1001" = .ok (.float (pyRound3 ((24000 : ℚ) / 1001))) := by
    simp [deriveFps, containsSub, pySplitChar, pyFloat, digitsVal]
  rw [h1]
  have hf : ratFloor ((24000 : ℚ) / 1001 * 1000) = 23976 := by
    rw [ratFloor, Int.floor_eq_iff]
    constructor <;> norm_num
  rw [pyRound3, roundHalfEven, hf]
  norm_num

theorem deriveFps_25_1 : deriveFps "25/1" = .ok (.float 25) := by
  have h1 : deriveFps "25/1" = .ok (.float (pyRound3 ((25 : ℚ) / 1))) := by
    simp [deriveFps, containsSub, pySplitChar, pyFloat, digitsVal]
  rw [h1]
  have hf : ratFloor ((25 : ℚ) / 1 * 1000) = 25000 := by
    rw [ratFloor]
    norm_num
  rw [pyRound3, roundHalfEven, hf]
  norm_num

/-- Claim C3 (amended): deriving the display frame rate from `"24000/1001"`
yields the float 23.976 (the quotient rounded to 3 decimals), and deriving it
from `"25/1"` also takes the fractional branch and yields the float 25.0
(numerically 25, but a float, rendered `25.0`), not the integer 25. -/
theorem fps_display_values :
    deriveFps "24000/1001" = .ok (.float (23.976 : ℚ))
      ∧ deriveFps "25/1" = .ok (.float 25) :=
  ⟨deriveFps_24000_1001, deriveFps_25_1⟩

/-- Claim C3 counterexample: the display value derived from `"25/1"` is not
the integer 25 -- the string contains `/`, so the division branch produces a
float (rendered `25.0` in the info string), not an int. -/
theorem fps_25_over_1_not_int :
    deriveFps "25/1" ≠ .ok (.int 25) := by
  rw [deriveFps_25_1]
  intro h
  exact FpsVal.noConfusion (Except.ok.inj h)



/-- Claim C6 counterexample: with user data `a := "${b}"`, `b := "X"` (keys in
that order), the value `"${a}"` compiles to `X`, not to `"${b}"`: the
sequential loop re-scans the text substituted for `a` when processing the
later key `b`, so the occurrence of `${a}` is not simply replaced by `a`'s
value as the claim states. -/
theorem subst_sequential_rescan :
    substEntriesCore [(['a'], targetOf ['b']), (['b'], ['X'])]
        (renderSegs [PlaceSeg.tok ['a']])
      ≠ specSubst [(['a'], targetOf ['b']), (['b'], ['X'])] [PlaceSeg.tok ['a']] := by decide

theorem substCore_per_occurrence_witness :
    substEntriesCore [(['k'], ['V'])]
        (renderSegs [PlaceSeg.lit ['n'], PlaceSeg.tok ['k'], PlaceSeg.tok ['u']])
      = specSubst [(['k'], ['V'])]
          [PlaceSeg.lit ['n'], PlaceSeg.tok ['k'], PlaceSeg.tok ['u']] :=
  substCore_per_occurrence _ _ (by decide) (by decide)

theorem getLoop_default_stays (default : PyObj) (hd : default.isDict = false) :
    ∀ ks : List String, getLoop default default ks = default
  | [] => rfl
  | _ :: _ => by
    cases default with
    | pyDict entries => simp [PyObj.isDict] at hd
    | pyNone => rfl
    | pyStr s => rfl
    | pyInt n => rfl
    | pyList xs => rfl

theorem getLoop_fails_default (default : PyObj) (hd : default.isDict = false) :
    ∀ (segs : List String) (item : PyObj),
      getFails item segs = true → getLoop default item segs = default
  | [], _, hf => by simp [getFails] at hf
  | k :: ks, item, hf => by
    cases item with
    | pyDict entries =>
      show getLoop default ((lookupA entries k).getD default) ks = default
      rcases hl : lookupA entries k with _ | v
      · exact getLoop_default_stays default hd ks
      · have hf' : getFails v ks = true := by
          have he : getFails (.pyDict entries) (k :: ks) = getFails v ks := by
            show (match lookupA entries k with
                  | some v => getFails v ks
                  | none => true) = _
            rw [hl]
          rw [← he]
          exact hf
        exact getLoop_fails_default default hd ks v hf'
    | pyNone => rfl
    | pyStr s => rfl
    | pyInt n => rfl
    | pyList xs => rfl

/-- Claim C4 (amended): `Config.get` splits the key on `.` and traverses
segment by segment; whenever a segment is absent or a non-mapping value is
reached, the default is substituted for the current value, so PROVIDED the
default is not itself a mapping, the default is returned whenever the
traversal fails.  (A mapping default is traversed further; see the
counterexample.) -/
theorem config_get_returns_default (data : List (String × PyObj)) (key : String)
    (default : PyObj) (hd : default.isDict = false)
    (hf : getFails (.pyDict data)
      ((pySplitChar '.' key.data).map (fun l => String.mk l)) = true) :
    configGet data key default = default :=
  getLoop_fails_default default hd _ _ hf

theorem config_get_returns_default_witness :
    configGet [] "a.b" (PyObj.pyStr "dflt") = PyObj.pyStr "dflt" :=
  config_get_returns_default [] "a.b" (PyObj.pyStr "dflt") rfl rfl

/-- Claim C4 counterexample: with an empty document, key `"a.b"` and the
mapping default `{b: "v"}`, `Config.get` returns `"v"`, not the supplied
default: the default is substituted mid-traversal for the missing segment
`a` and then traversed into. -/
theorem config_get_traverses_dict_default :
    configGet [] "a.b" (PyObj.pyDict [("b", PyObj.pyStr "v")]) = PyObj.pyStr "v"
      ∧ PyObj.pyStr "v" ≠ PyObj.pyDict [("b", PyObj.pyStr "v")] :=
  ⟨rfl, fun h => PyObj.noConfusion h⟩

/-- Claim C9: hydrating the user-data namespace from a `KEY=VALUE` string list
is not atomic on error: when a later entry does not split on `=` into exactly
two parts, the raised error leaves every earlier well-formed entry already
written into the namespace. -/
theorem hydrate_nonatomic :
    ∀ (good : List String) (ud : List (String × String)) (bad : String) (rest : List String),
      (∀ e ∈ good, (pySplitChar '=' e.data).length = 2) →
      (pySplitChar '=' bad.data).length ≠ 2 →
      hydrateList ud (good ++ bad :: rest)
        = (good.foldl hydrateStep ud, some (badEntryMsg bad))
  | [], ud, bad, rest, _, hbad => by
    show (match pySplitChar '=' bad.data with
          | [k, v] => hydrateList (dictInsert ud (String.mk k) (String.mk v)) rest
          | _ => (ud, some (badEntryMsg bad))) = (ud, some (badEntryMsg bad))
    rcases hs : pySplitChar '=' bad.data with _ | ⟨k, _ | ⟨v, _ | ⟨w, t⟩⟩⟩
    · rfl
    · rfl
    · rw [hs] at hbad
      simp at hbad
    · rfl
  | e :: good, ud, bad, rest, hg, hbad => by
    have he : (pySplitChar '=' e.data).length = 2 := hg e (List.mem_cons_self _ _)
    rcases hs : pySplitChar '=' e.data with _ | ⟨k, _ | ⟨v, _ | ⟨w, t⟩⟩⟩
    · rw [hs] at he
      simp at he
    · rw [hs] at he
      simp at he
    · show (match pySplitChar '=' e.data with
            | [k, v] => hydrateList (dictInsert ud (String.mk k) (String.mk v))
                (good ++ bad :: rest)
            | _ => (ud, some (badEntryMsg e))) = _
      rw [hs]
      show hydrateList (dictInsert ud (String.mk k) (String.mk v)) (good ++ bad :: rest) = _
      rw [hydrate_nonatomic good (dictInsert ud (String.mk k) (String.mk v)) bad rest
        (fun e' m => hg e' (List.mem_cons_of_mem _ m)) hbad]
      have hstep : hydrateStep ud e = dictInsert ud (String.mk k) (String.mk v) := by
        show (match pySplitChar '=' e.data with
              | [k, v] => dictInsert ud (String.mk k) (String.mk v)
              | _ => ud) = _
        rw [hs]
      rw [List.foldl_cons, hstep]
    · rw [hs] at he
      simp at he

theorem hydrate_nonatomic_witness :
    hydrateList [] ["a=1", "x", "b=2"] = ([("a", "1")], some (badEntryMsg "x")) := by
  have h := hydrate_nonatomic ["a=1"] [] "x" ["b=2"] (by decide) (by decide)
  exact h.trans (by decide)

theorem pySplit_no_sep (sep : Char) : ∀ s : List Char, sep ∉ s → pySplitChar sep s = [s]
  | [], _ => rfl
  | c :: s, h => by
    have hs : pySplitChar sep s = [s] :=
      pySplit_no_sep sep s (fun m => h (List.mem_cons_of_mem c m))
    show (match pySplitChar sep s with
          | [] => [[]]
          | p :: ps => if c = sep then [] :: p :: ps else (c :: p) :: ps) = [c :: s]
    rw [hs]
    have hc : ¬ c = sep := fun e => h (by rw [← e]; exact List.mem_cons_self c s)
    show (if c = sep then [] :: s :: [] else (c :: s) :: []) = [c :: s]
    rw [if_neg hc]

theorem pySplit_once (sep : Char) : ∀ (a b : List Char), sep ∉ a → sep ∉ b →
    pySplitChar sep (a ++ sep :: b) = [a, b]
  | [], b, _, hb => by
    show (match pySplitChar sep b with
          | [] => [[]]
          | p :: ps => if sep = sep then [] :: p :: ps else (sep :: p) :: ps) = [[], b]
    rw [pySplit_no_sep sep b hb]
    show (if sep = sep then [] :: b :: [] else (sep :: b) :: []) = [[], b]
    rw [if_pos rfl]
  | c :: a, b, ha, hb => by
    have hrec : pySplitChar sep (a ++ sep :: b) = [a, b] :=
      pySplit_once sep a b (fun m => ha (List.mem_cons_of_mem c m)) hb
    show (match pySplitChar sep (a ++ sep :: b) with
          | [] => [[]]
          | p :: ps => if c = sep then [] :: p :: ps else (c :: p) :: ps) = [c :: a, b]
    rw [hrec]
    have hc : ¬ c = sep := fun e => ha (by rw [← e]; exact List.mem_cons_self c a)
    show (if c = sep then [] :: a :: [b] else (c :: a) :: [b]) = [c :: a, b]
    rw [if_neg hc]

/-- Claim C10: any entry with exactly one `=` -- written here as
`k ++ "=" ++ v` with `=`-free `k` and `v`, covering `"=VALUE"`, `"KEY="` and
`"="` -- is accepted by list hydration and stored with the (possibly empty)
key and value, with no error. -/
theorem hydrate_accepts_empty_key_value (ud : List (String × String)) (k v : String)
    (hk : '=' ∉ k.data) (hv : '=' ∉ v.data) :
    hydrateList ud [String.mk (k.data ++ '=' :: v.data)] = (dictInsert ud k v, none) := by
  have hsplit : pySplitChar '=' (String.mk (k.data ++ '=' :: v.data)).data
      = [k.data, v.data] := pySplit_once '=' k.data v.data hk hv
  show (match pySplitChar '=' (String.mk (k.data ++ '=' :: v.data)).data with
        | [a, b] => hydrateList (dictInsert ud (String.mk a) (String.mk b)) []
        | _ => (ud, some (badEntryMsg (String.mk (k.data ++ '=' :: v.data))))) = _
  rw [hsplit]
  show (dictInsert ud (String.mk k.data) (String.mk v.data), none) = _
  rw [show String.mk k.data = k from String.ext rfl,
    show String.mk v.data = v from String.ext rfl]

theorem hydrate_accepts_empty_key_value_witness :
    hydrateList [] ["=VALUE"] = (dictInsert [] "" "VALUE", none)
      ∧ hydrateList [] ["KEY="] = (dictInsert [] "KEY" "", none)
      ∧ hydrateList [] ["="] = (dictInsert [] "" "", none) :=
  ⟨hydrate_accepts_empty_key_value [] "" "VALUE" (by decide) (by decide),
   hydrate_accepts_empty_key_value [] "KEY" "" (by decide) (by decide),
   hydrate_accepts_empty_key_value [] "" "" (by decide) (by decide)⟩

end Fluxbitc
